import Mathlib

/-!
Verification of the client-side media pipeline of the video transcription
application: compression-settings recommendation, audio-extraction fallback
orchestration, chunked transcription stitching, transcript editing, and
export handling.  Each definition is a shallow embedding of the
corresponding JavaScript function; machine floats on byte-size arithmetic
are modelled exactly by rationals (all divisions involved are exact in
IEEE doubles for realistic sizes).
-/

namespace VideoApp

/-! ## compressionService: recommended compression settings -/

inductive Quality where
  | low
  | medium
  | high
  deriving DecidableEq, Repr

structure CompressionSettings where
  quality : Quality
  maxWidth : ℕ
  maxHeight : ℕ
  frameRate : ℕ
  audioBitrate : String
  deriving DecidableEq, Repr

/-- `getRecommendedCompressionSettings(fileSizeBytes)` from
`compressionService.js`: converts the byte count to GB and picks a tier by
a step function. -/
def getRecommendedCompressionSettings (fileSizeBytes : ℕ) : CompressionSettings :=
  let fileSizeGB : ℚ := (fileSizeBytes : ℚ) / (1024 * 1024 * 1024)
  if fileSizeGB > 4 then
    { quality := .low, maxWidth := 854, maxHeight := 480,
      frameRate := 24, audioBitrate := "96k" }
  else if fileSizeGB > 2 then
    { quality := .low, maxWidth := 1280, maxHeight := 720,
      frameRate := 24, audioBitrate := "128k" }
  else if fileSizeGB > 1 then
    { quality := .medium, maxWidth := 1280, maxHeight := 720,
      frameRate := 30, audioBitrate := "128k" }
  else
    { quality := .high, maxWidth := 1920, maxHeight := 1080,
      frameRate := 30, audioBitrate := "192k" }

/-- Numeric rank of a quality tier, used to state monotonicity. -/
def qualityRank : Quality → ℕ
  | .low => 0
  | .medium => 1
  | .high => 2

/-- One gigabyte (`1024 * 1024 * 1024` bytes). -/
def gib : ℕ := 1024 * 1024 * 1024

lemma sizeGB_gt_iff (fileSizeBytes k : ℕ) :
    ((fileSizeBytes : ℚ) / (1024 * 1024 * 1024) > (k : ℚ)) ↔ fileSizeBytes > k * gib := by
  rw [gt_iff_lt, lt_div_iff (by norm_num : (0 : ℚ) < 1024 * 1024 * 1024)]
  rw [show ((k : ℚ) * (1024 * 1024 * 1024)) = ((k * gib : ℕ) : ℚ) by
    push_cast [gib]; ring]
  exact_mod_cast Iff.rfl

lemma getRecommended_eq (n : ℕ) :
    getRecommendedCompressionSettings n =
      if n > 4 * gib then
        { quality := .low, maxWidth := 854, maxHeight := 480,
          frameRate := 24, audioBitrate := "96k" }
      else if n > 2 * gib then
        { quality := .low, maxWidth := 1280, maxHeight := 720,
          frameRate := 24, audioBitrate := "128k" }
      else if n > 1 * gib then
        { quality := .medium, maxWidth := 1280, maxHeight := 720,
          frameRate := 30, audioBitrate := "128k" }
      else
        { quality := .high, maxWidth := 1920, maxHeight := 1080,
          frameRate := 30, audioBitrate := "192k" } := by
  unfold getRecommendedCompressionSettings
  have h4 := sizeGB_gt_iff n 4
  have h2 := sizeGB_gt_iff n 2
  have h1 := sizeGB_gt_iff n 1
  push_cast at h4 h2 h1
  by_cases c4 : n > 4 * gib
  · rw [if_pos (h4.mpr c4), if_pos c4]
  · rw [if_neg (fun h => c4 (h4.mp h)), if_neg c4]
    by_cases c2 : n > 2 * gib
    · rw [if_pos (h2.mpr c2), if_pos c2]
    · rw [if_neg (fun h => c2 (h2.mp h)), if_neg c2]
      by_cases c1 : n > 1 * gib
      · rw [if_pos (h1.mpr c1), if_pos c1]
      · rw [if_neg (fun h => c1 (h1.mp h)), if_neg c1]

/-- C1: `getRecommendedCompressionSettings` is a total deterministic step
function of size: over 4GB gives Low/854×480/24fps/96k, over 2GB (and at
most 4GB) gives Low/1280×720/24fps/128k, over 1GB (and at most 2GB) gives
Medium/1280×720/30fps/128k, and all other sizes give
High/1920×1080/30fps/192k; consequently the selected quality tier is
monotonically non-increasing as the size increases. -/
theorem recommended_settings_step_and_monotone (n m : ℕ) (hnm : n ≤ m) :
    (n > 4 * gib →
      getRecommendedCompressionSettings n =
        { quality := .low, maxWidth := 854, maxHeight := 480,
          frameRate := 24, audioBitrate := "96k" }) ∧
    (n > 2 * gib → n ≤ 4 * gib →
      getRecommendedCompressionSettings n =
        { quality := .low, maxWidth := 1280, maxHeight := 720,
          frameRate := 24, audioBitrate := "128k" }) ∧
    (n > 1 * gib → n ≤ 2 * gib →
      getRecommendedCompressionSettings n =
        { quality := .medium, maxWidth := 1280, maxHeight := 720,
          frameRate := 30, audioBitrate := "128k" }) ∧
    (n ≤ 1 * gib →
      getRecommendedCompressionSettings n =
        { quality := .high, maxWidth := 1920, maxHeight := 1080,
          frameRate := 30, audioBitrate := "192k" }) ∧
    qualityRank (getRecommendedCompressionSettings m).quality ≤
      qualityRank (getRecommendedCompressionSettings n).quality := by
  rw [getRecommended_eq n, getRecommended_eq m]
  refine ⟨?_, ?_, ?_, ?_, ?_⟩
  · intro h; rw [if_pos h]
  · intro h h'; rw [if_neg (by omega), if_pos h]
  · intro h h'; rw [if_neg (by omega), if_neg (by omega), if_pos h]
  · intro h; rw [if_neg (by omega), if_neg (by omega), if_neg (by omega)]
  · by_cases c4 : n > 4 * gib
    · rw [if_pos c4, if_pos (by omega : m > 4 * gib)]
    · rw [if_neg c4]
      by_cases c2 : n > 2 * gib
      · rw [if_pos c2]
        by_cases d4 : m > 4 * gib
        · rw [if_pos d4]
        · rw [if_neg d4, if_pos (by omega : m > 2 * gib)]
      · rw [if_neg c2]
        by_cases c1 : n > 1 * gib
        · rw [if_pos c1]
          by_cases d4 : m > 4 * gib
          · rw [if_pos d4]; simp [qualityRank]
          · rw [if_neg d4]
            by_cases d2 : m > 2 * gib
            · rw [if_pos d2]; simp [qualityRank]
            · rw [if_neg d2, if_pos (by omega : m > 1 * gib)]
        · rw [if_neg c1]
          by_cases d4 : m > 4 * gib
          · rw [if_pos d4]; simp [qualityRank]
          · rw [if_neg d4]
            by_cases d2 : m > 2 * gib
            · rw [if_pos d2]; simp [qualityRank]
            · rw [if_neg d2]
              by_cases d1 : m > 1 * gib
              · rw [if_pos d1]; simp [qualityRank]
              · rw [if_neg d1]

/-- Witness for C1 at a concrete pair of sizes (3GB and 5GB). -/
theorem recommended_settings_step_and_monotone_witness :
    3 * gib ≤ 5 * gib ∧
    ((3 * gib > 4 * gib →
      getRecommendedCompressionSettings (3 * gib) =
        { quality := .low, maxWidth := 854, maxHeight := 480,
          frameRate := 24, audioBitrate := "96k" }) ∧
    (3 * gib > 2 * gib → 3 * gib ≤ 4 * gib →
      getRecommendedCompressionSettings (3 * gib) =
        { quality := .low, maxWidth := 1280, maxHeight := 720,
          frameRate := 24, audioBitrate := "128k" }) ∧
    (3 * gib > 1 * gib → 3 * gib ≤ 2 * gib →
      getRecommendedCompressionSettings (3 * gib) =
        { quality := .medium, maxWidth := 1280, maxHeight := 720,
          frameRate := 30, audioBitrate := "128k" }) ∧
    (3 * gib ≤ 1 * gib →
      getRecommendedCompressionSettings (3 * gib) =
        { quality := .high, maxWidth := 1920, maxHeight := 1080,
          frameRate := 30, audioBitrate := "192k" }) ∧
    qualityRank (getRecommendedCompressionSettings (5 * gib)).quality ≤
      qualityRank (getRecommendedCompressionSettings (3 * gib)).quality) :=
  ⟨by norm_num [gib],
   recommended_settings_step_and_monotone (3 * gib) (5 * gib) (by norm_num [gib])⟩

/-- C7 counterexample: on a 600MB input the code returns the High tier
(1920×1080, 30fps, 192k), not the Medium tier claimed by the spec's
Scenario A. -/
theorem recommended_600MB_not_medium :
    getRecommendedCompressionSettings (600 * 1024 * 1024) =
      { quality := .high, maxWidth := 1920, maxHeight := 1080,
        frameRate := 30, audioBitrate := "192k" } ∧
    (getRecommendedCompressionSettings (600 * 1024 * 1024)).quality ≠ Quality.medium := by
  constructor
  · rw [getRecommended_eq]
    rw [if_neg (by norm_num [gib]), if_neg (by norm_num [gib]), if_neg (by norm_num [gib])]
  · rw [getRecommended_eq]
    rw [if_neg (by norm_num [gib]), if_neg (by norm_num [gib]), if_neg (by norm_num [gib])]
    decide

/-- C7 amended: a 600MB input yields the High tier with 1920×1080, 30fps
and 192k audio. -/
theorem recommended_600MB_high :
    getRecommendedCompressionSettings (600 * 1024 * 1024) =
      { quality := .high, maxWidth := 1920, maxHeight := 1080,
        frameRate := 30, audioBitrate := "192k" } := by
  rw [getRecommended_eq]
  rw [if_neg (by norm_num [gib]), if_neg (by norm_num [gib]), if_neg (by norm_num [gib])]

/-! ## compressionService: audio extraction orchestration

`extractAudioOnly` first emits progress 5, then tries
`nativeBrowserAudioExtraction`; on any rejection it falls back to
`ffmpegAudioExtraction`.  The native path emits 10 (setup), 20 (metadata
loaded), 30 (recording started), interval ticks `30 + fraction*60`, then
90 and 100; it can fail during setup (after 10), during audio-context
setup (after 20), at play rejection (after 30), or during playback (after
the ticks).  The FFmpeg path emits 20, 40, 80, 100. -/

/-- Progress values emitted by `ffmpegAudioExtraction` on a successful run. -/
def ffmpegProgress : List ℚ := [20, 40, 80, 100]

/-- An interval tick of the native path: `30 + (currentTime/duration) * 60`. -/
def tickValue (frac : ℚ) : ℚ := 30 + frac * 60

/-- Where the native extraction path fails, determining which progress
values it emitted before rejecting. -/
inductive NativeFail where
  | setup
  | audioSetup
  | playRejected
  | playback (fracs : List ℚ)

/-- Progress values the native path emitted before its rejection. -/
def nativeFailEmits : NativeFail → List ℚ
  | .setup => [10]
  | .audioSetup => [10, 20]
  | .playRejected => [10, 20, 30]
  | .playback fracs => [10, 20, 30] ++ fracs.map tickValue

/-- A completed `extractAudioOnly` run: either the native path succeeds
(with the given playback fractions at interval ticks), or it fails and the
FFmpeg fallback completes the extraction. -/
inductive ExtractRun where
  | nativeOk (fracs : List ℚ)
  | fallbackOk (fail : NativeFail)

/-- The playback fractions sampled by the native path's progress interval
during the run. -/
def runFracs : ExtractRun → List ℚ
  | .nativeOk fracs => fracs
  | .fallbackOk (.playback fracs) => fracs
  | .fallbackOk _ => []

/-- The full sequence of progress percentages delivered to the callback
during a completed `extractAudioOnly` run. -/
def extractProgressTrace : ExtractRun → List ℚ
  | .nativeOk fracs => [5, 10, 20, 30] ++ fracs.map tickValue ++ [90, 100]
  | .fallbackOk fail => [5] ++ nativeFailEmits fail ++ ffmpegProgress

/-- The per-attempt progress sub-sequences of a run: a native-success run
is one attempt; a fallback run is the native attempt's emissions followed
by the FFmpeg attempt's emissions. -/
def attemptTraces : ExtractRun → List (List ℚ)
  | .nativeOk fracs => [[5, 10, 20, 30] ++ fracs.map tickValue ++ [90, 100]]
  | .fallbackOk fail => [[5] ++ nativeFailEmits fail, ffmpegProgress]

/-- C2 counterexample: in a run where the native path fails at play
rejection (after reporting 30) and the FFmpeg fallback completes, the
delivered progress sequence is [5,10,20,30,20,40,80,100]: its last value
is 100 but it is not non-decreasing (30 is followed by 20), refuting the
claim that the progress sequence is non-decreasing in every completed
run. -/
theorem extract_progress_fallback_decreases :
    extractProgressTrace (.fallbackOk .playRejected) = [5, 10, 20, 30, 20, 40, 80, 100] ∧
    ¬ List.Chain' (· ≤ ·) (extractProgressTrace (.fallbackOk .playRejected)) ∧
    (extractProgressTrace (.fallbackOk .playRejected)).getLast? = some 100 := by
  refine ⟨rfl, ?_, rfl⟩
  intro h
  rw [show extractProgressTrace (.fallbackOk .playRejected) =
        [5, 10, 20, 30, 20, 40, 80, 100] from rfl] at h
  have h30 : ((30 : ℚ) ≤ 20) := by
    have := h.tail.tail.tail
    exact this.rel_head
  norm_num at h30

lemma chain'_map_tickValue {fracs : List ℚ} (h : List.Chain' (· ≤ ·) fracs) :
    List.Chain' (· ≤ ·) (fracs.map tickValue) := by
  rw [List.chain'_map]
  refine h.imp ?_
  intro a b hab
  unfold tickValue
  linarith

lemma tickValue_ge {f : ℚ} (h : 0 ≤ f) : (30 : ℚ) ≤ tickValue f := by
  unfold tickValue; linarith

lemma tickValue_le {f : ℚ} (h : f ≤ 1) : tickValue f ≤ 90 := by
  unfold tickValue; linarith

lemma chain'_ticks_block {fracs : List ℚ}
    (hmono : List.Chain' (· ≤ ·) fracs) (hbd : ∀ f ∈ fracs, 0 ≤ f ∧ f ≤ 1) :
    List.Chain' (· ≤ ·) ([5, 10, 20, 30] ++ fracs.map tickValue) := by
  rw [List.chain'_append]
  refine ⟨by norm_num, chain'_map_tickValue hmono, ?_⟩
  intro x hx y hy
  simp only [List.getLast?] at hx
  cases hx
  cases fracs with
  | nil => simp at hy
  | cons f fs =>
    simp only [List.map_cons, List.head?_cons, Option.mem_def, Option.some.injEq] at hy
    subst hy
    exact tickValue_ge (hbd f (List.mem_cons_self f fs)).1

lemma ticks_getLast_le {fracs : List ℚ} (hbd : ∀ f ∈ fracs, 0 ≤ f ∧ f ≤ 1)
    {x : ℚ} (hx : x ∈ (fracs.map tickValue).getLast?) : x ≤ 90 := by
  rw [List.getLast?_map] at hx
  cases hfl : fracs.getLast? with
  | none => rw [hfl] at hx; simp at hx
  | some f =>
    rw [hfl] at hx
    simp only [Option.map_some', Option.mem_def, Option.some.injEq] at hx
    subst hx
    exact tickValue_le (hbd f (List.mem_of_mem_getLast? (hfl ▸ rfl))).2

/-- C2 amended: in every completed `extractAudioOnly` run (native success
or native failure completed by the FFmpeg fallback), the last reported
progress value is exactly 100, and the progress sequence is non-decreasing
within each individual extraction attempt; it is only across the
native-to-FFmpeg fallback boundary that the sequence may decrease (the
fallback restarts at 20). -/
theorem extract_progress_last_100_and_attemptwise_monotone (run : ExtractRun)
    (hmono : List.Chain' (· ≤ ·) (runFracs run))
    (hbd : ∀ f ∈ runFracs run, 0 ≤ f ∧ f ≤ 1) :
    (extractProgressTrace run).getLast? = some 100 ∧
    ∀ t ∈ attemptTraces run, List.Chain' (· ≤ ·) t := by
  cases run with
  | nativeOk fracs =>
    simp only [runFracs] at hmono hbd
    constructor
    · show (([5, 10, 20, 30] : List ℚ) ++ fracs.map tickValue ++ [90, 100]).getLast? =
          some (100 : ℚ)
      rw [List.getLast?_append]
      rfl
    · intro t ht
      simp only [attemptTraces, List.mem_singleton] at ht
      subst ht
      rw [List.chain'_append]
      refine ⟨chain'_ticks_block hmono hbd, by norm_num, ?_⟩
      intro x hx y hy
      simp only [List.head?_cons, Option.mem_def, Option.some.injEq] at hy
      subst hy
      rw [List.getLast?_append] at hx
      cases hfl : (fracs.map tickValue).getLast? with
      | none =>
        rw [hfl] at hx
        simp only [Option.or_none, List.getLast?] at hx
        cases hx
        norm_num
      | some v =>
        rw [hfl] at hx
        simp only [Option.or_some, Option.mem_def, Option.some.injEq] at hx
        subst hx
        exact ticks_getLast_le hbd hfl
  | fallbackOk fail =>
    constructor
    · show (((5 : ℚ) :: nativeFailEmits fail) ++ ffmpegProgress).getLast? = some 100
      rw [List.getLast?_append]
      rfl
    · intro t ht
      simp only [attemptTraces, List.mem_cons, List.singleton_append] at ht
      rcases ht with ht | ht | ht
      case inr.inr => simp at ht
      case inr.inl =>
        subst ht
        norm_num [ffmpegProgress]
      subst ht
      cases fail with
        | setup => norm_num [nativeFailEmits]
        | audioSetup => norm_num [nativeFailEmits]
        | playRejected => norm_num [nativeFailEmits]
        | playback fracs =>
          simp only [runFracs] at hmono hbd
          show List.Chain' (· ≤ ·) (5 :: ([10, 20, 30] ++ fracs.map tickValue))
          have h := chain'_ticks_block hmono hbd
          rw [show ((5 : ℚ) :: ([10, 20, 30] ++ fracs.map tickValue)) =
                [5, 10, 20, 30] ++ fracs.map tickValue from rfl]
          exact h

/-- Witness for C2 (amended) at a concrete fallback run with two playback
ticks at fractions 1/4 and 1/2. -/
theorem extract_progress_last_100_witness :
    (List.Chain' (· ≤ ·) (runFracs (.fallbackOk (.playback [1/4, 1/2]))) ∧
     ∀ f ∈ runFracs (.fallbackOk (.playback [1/4, 1/2])), 0 ≤ f ∧ f ≤ 1) ∧
    ((extractProgressTrace (.fallbackOk (.playback [1/4, 1/2]))).getLast? = some 100 ∧
     ∀ t ∈ attemptTraces (.fallbackOk (.playback [1/4, 1/2])), List.Chain' (· ≤ ·) t) := by
  refine ⟨⟨by norm_num [runFracs], ?_⟩, ?_⟩
  · intro f hf
    simp only [runFracs, List.mem_cons, List.mem_singleton] at hf
    rcases hf with h | h | h <;> first | (subst h; norm_num) | simp at h
  · refine extract_progress_last_100_and_attemptwise_monotone _ (by norm_num [runFracs]) ?_
    intro f hf
    simp only [runFracs, List.mem_cons, List.mem_singleton] at hf
    rcases hf with h | h | h <;> first | (subst h; norm_num) | simp at h

/-! ### Fallback semantics of `extractAudioOnly` (C6)

The control flow of `extractAudioOnly`, with the outcome of each strategy
supplied as an oracle: the native path's result, and the FFmpeg path's
internal result (whose error the FFmpeg wrapper prefixes with
"FFmpeg audio extraction failed: "). -/

/-- An extraction strategy attempt. -/
inductive Attempt where
  | native
  | engine
  deriving DecidableEq, Repr

/-- `extractAudioOnly`'s try/catch: return the native result if it
succeeds; on native failure run the FFmpeg path once, returning its blob
on success and its (wrapped) error on failure.  The first component lists
the attempts made, in order. -/
def extractAudioOnlyRun (nativeRes engineRes : Except String ℕ) :
    List Attempt × Except String ℕ :=
  match nativeRes with
  | .ok b => ([.native], .ok b)
  | .error _ =>
    match engineRes with
    | .ok b => ([.native, .engine], .ok b)
    | .error e => ([.native, .engine], .error ("FFmpeg audio extraction failed: " ++ e))

/-- C6: if the native path fails for any reason, `extractAudioOnly` makes
exactly one engine (FFmpeg) attempt; if that attempt produces a blob it is
returned, and if it also fails the run ends with a typed error (the
wrapped FFmpeg message) with no further attempt. -/
theorem extract_fallback_exactly_once (nativeRes engineRes : Except String ℕ)
    (msg : String) (hn : nativeRes = .error msg) :
    (extractAudioOnlyRun nativeRes engineRes).1 = [.native, .engine] ∧
    ((extractAudioOnlyRun nativeRes engineRes).1.count .engine = 1) ∧
    (∀ b, engineRes = .ok b → (extractAudioOnlyRun nativeRes engineRes).2 = .ok b) ∧
    (∀ e, engineRes = .error e →
      (extractAudioOnlyRun nativeRes engineRes).2 =
        .error ("FFmpeg audio extraction failed: " ++ e)) := by
  subst hn
  cases engineRes with
  | ok b =>
    refine ⟨rfl, rfl, ?_, ?_⟩
    · intro b' hb'
      cases hb'
      rfl
    · intro e he
      cases he
  | error e =>
    refine ⟨rfl, rfl, ?_, ?_⟩
    · intro b' hb'
      cases hb'
    · intro e' he'
      cases he'
      rfl

/-- Witness for C6 at a concrete native failure and engine failure. -/
theorem extract_fallback_exactly_once_witness :
    ((Except.error "decode error" : Except String ℕ) = .error "decode error") ∧
    ((extractAudioOnlyRun (.error "decode error") (.error "oom")).1 = [.native, .engine] ∧
     ((extractAudioOnlyRun (.error "decode error") (.error "oom")).1.count .engine = 1) ∧
     (∀ b, (Except.error "oom" : Except String ℕ) = .ok b →
       (extractAudioOnlyRun (.error "decode error") (.error "oom")).2 = .ok b) ∧
     (∀ e, (Except.error "oom" : Except String ℕ) = .error e →
       (extractAudioOnlyRun (.error "decode error") (.error "oom")).2 =
         .error ("FFmpeg audio extraction failed: " ++ e))) :=
  ⟨rfl, extract_fallback_exactly_once (.error "decode error") (.error "oom")
    "decode error" rfl⟩

/-! ## transcriptionService: chunked transcription driver

`transcribeAudio` measures the blob in MB and, when it exceeds 25MB *and*
a progress callback was supplied, runs `transcribeAudioInChunks`
(20MB byte ranges, each chunk fed to the simulated backend
`generateOptimizedTranscription` with a proportional duration and a
start-time offset); otherwise it runs the direct path.  `Math.random()`
draws are modelled by an explicit stream `rng`; the `i`-th loop iteration
consumes draws `3*i` (duration jitter), `3*i+1` (phrase combination) and
`3*i+2` (confidence). -/

/-- A transcript segment as produced by the simulated backend. -/
structure TSeg where
  id : ℤ
  startTime : ℚ
  endTime : ℚ
  text : String
  confidence : ℚ
  deriving DecidableEq, Repr

/-- The phrase bank of `generateOptimizedTranscription`. -/
def phrases : List String := [
  "Welcome to our comprehensive video presentation.",
  "Today we'll be discussing the key features and capabilities of our new platform.",
  "Our application is designed to be user-friendly, intuitive, and scalable for enterprise use.",
  "Let's start by examining the dashboard interface and its various components.",
  "As you can see, the analytics section provides comprehensive insights into user behavior.",
  "Users can easily navigate between different sections using the responsive sidebar menu.",
  "One of the most powerful features is the ability to generate custom reports and visualizations.",
  "Data visualization tools help make sense of complex information and trends over time.",
  "Security is a top priority in our application design and architecture.",
  "All user data is encrypted both in transit and at rest using industry-standard protocols.",
  "The collaboration tools enable teams to work together effectively across different time zones.",
  "Real-time updates ensure everyone has access to the latest information and changes.",
  "Let's move on to the mobile experience and responsive design capabilities.",
  "Our responsive design works seamlessly across all devices and screen sizes.",
  "Push notifications keep users informed about important updates and deadlines.",
  "The offline mode allows for productivity even without a stable internet connection.",
  "Integration with third-party services extends the platform's capabilities significantly.",
  "API documentation is comprehensive, well-maintained, and includes practical examples.",
  "Performance optimization ensures fast loading times even with large datasets.",
  "Automated backup systems protect against data loss and ensure business continuity.",
  "User access controls and permissions provide granular security management.",
  "The reporting system generates detailed analytics and insights for decision making.",
  "Customizable workflows adapt to different business processes and requirements.",
  "Let's summarize what we've covered in today's comprehensive demonstration.",
  "Thank you for watching this detailed presentation of our platform capabilities."]

/-- The 8-second average segment duration of the generator. -/
def avgSegmentDuration : ℚ := 8

/-- `Math.floor` on exact rationals (float values of the implementation
are modelled exactly): floor division of numerator by denominator. -/
def jsFloor (q : ℚ) : ℤ := q.num / (q.den : ℤ)

/-- `Math.ceil` clamped to ℕ, as used for loop iteration counts. -/
def jsCeilNat (q : ℚ) : ℕ := (-(jsFloor (-q))).toNat

lemma jsFloor_eq_floor (q : ℚ) : jsFloor q = ⌊q⌋ := by
  rw [jsFloor, Rat.floor_def]

lemma jsCeilNat_eq_ceil (q : ℚ) : jsCeilNat q = ⌈q⌉₊ := by
  rw [jsCeilNat, jsFloor_eq_floor, show -⌊-q⌋ = ⌈q⌉ by rw [← Int.ceil_neg, neg_neg]]
  exact Int.ceil_toNat q

/-- The generation loop of `generateOptimizedTranscription`: `fuel` is the
number of remaining iterations of the bound `i < segmentCount`, and the
loop also stops once `currentTime` reaches the end of the covered span. -/
def genAux (rng : ℕ → ℚ) (endT : ℚ) (segmentCount : ℕ) :
    ℕ → ℕ → ℚ → ℤ → List TSeg
  | 0, _, _, _ => []
  | fuel + 1, i, currentTime, segmentId =>
    if currentTime < endT then
      let segmentDuration :=
        min (avgSegmentDuration + (rng (3 * i) * 4 - 2)) (endT - currentTime)
      let endTime := currentTime + segmentDuration
      let phraseIndex := ((segmentId - 1) % (phrases.length : ℤ)).toNat
      let base := phrases.getD phraseIndex ""
      let text :=
        if rng (3 * i + 1) > 4 / 5 ∧ i < segmentCount - 1 then
          base ++ " " ++ phrases.getD ((phraseIndex + 1) % phrases.length) ""
        else base
      { id := segmentId, startTime := currentTime, endTime := endTime,
        text := text, confidence := rng (3 * i + 2) * (15 / 100) + 85 / 100 } ::
        genAux rng endT segmentCount fuel (i + 1) endTime (segmentId + 1)
    else []

/-- `generateOptimizedTranscription(duration, startOffset)`: segment
timing starts at `startOffset`, ids start at `floor(startOffset/8)+1`,
and at most `ceil(duration/8)` segments are produced. -/
def generateOptimizedTranscription (rng : ℕ → ℚ) (duration startOffset : ℚ) : List TSeg :=
  let segmentCount := jsCeilNat (duration / avgSegmentDuration)
  genAux rng (startOffset + duration) segmentCount segmentCount 0 startOffset
    (jsFloor (startOffset / 8) + 1)

/-- 20MB chunk size of `transcribeAudioInChunks`. -/
def chunkSize : ℕ := 20 * 1024 * 1024

/-- `Math.ceil(audioBlob.size / chunkSize)`. -/
def totalChunks (size : ℕ) : ℕ := jsCeilNat ((size : ℚ) / (chunkSize : ℚ))

/-- The byte ranges `audioBlob.slice(start, end)` cut by the chunk loop:
`start = i * chunkSize`, `end = min(start + chunkSize, size)`. -/
def chunkRanges (size : ℕ) : List (ℕ × ℕ) :=
  (List.range (totalChunks size)).map fun i =>
    (i * chunkSize, min (i * chunkSize + chunkSize) size)

/-- The segments of chunk `i` of a chunked run: the simulated backend run
with the chunk's proportional duration and its start-time offset
`i * chunkDuration`. -/
def chunkSegs (rng : ℕ → ℕ → ℚ) (size : ℕ) (durationHint : ℚ) (i : ℕ) : List TSeg :=
  let chunkDuration := durationHint / (totalChunks size : ℚ)
  generateOptimizedTranscription (rng i) chunkDuration ((i : ℚ) * chunkDuration)

/-- `transcribeAudioInChunks`: concatenation of the per-chunk segment
lists in chunk order. -/
def transcribeAudioInChunks (rng : ℕ → ℕ → ℚ) (size : ℕ) (durationHint : ℚ) : List TSeg :=
  (List.range (totalChunks size)).flatMap (chunkSegs rng size durationHint)

/-- The processing mode chosen by `transcribeAudio`. -/
inductive TranscribeMode where
  | direct
  | chunked
  deriving DecidableEq, Repr

/-- Mode selection of `transcribeAudio`: the chunked path is taken when
`audioBlob.size / (1024*1024) > 25` *and* `options.progressCallback` is
set (`if (isLargeAudio && options.progressCallback)`). -/
def transcribeMode (size : ℕ) (hasProgressCallback : Bool) : TranscribeMode :=
  let audioSizeMB : ℚ := (size : ℚ) / (1024 * 1024)
  let isLargeAudio := audioSizeMB > 25
  if isLargeAudio ∧ hasProgressCallback = true then .chunked else .direct

lemma sizeMB_gt_25_iff (size : ℕ) :
    ((size : ℚ) / (1024 * 1024) > 25) ↔ size > 25 * 1024 * 1024 := by
  rw [gt_iff_lt, lt_div_iff₀ (by norm_num : (0 : ℚ) < 1024 * 1024)]
  constructor
  · intro h
    exact_mod_cast (by push_cast; linarith : ((25 * 1024 * 1024 : ℕ) : ℚ) < (size : ℚ))
  · intro h
    have : ((25 * 1024 * 1024 : ℕ) : ℚ) < (size : ℚ) := by exact_mod_cast h
    push_cast at this
    linarith

lemma lt_totalChunks_iff (size i : ℕ) : i < totalChunks size ↔ i * chunkSize < size := by
  unfold totalChunks
  rw [jsCeilNat_eq_ceil, Nat.lt_ceil,
    lt_div_iff₀ (by norm_num [chunkSize] : (0 : ℚ) < (chunkSize : ℚ))]
  constructor
  · intro h
    exact_mod_cast (by push_cast at h ⊢; linarith : ((i * chunkSize : ℕ) : ℚ) < (size : ℚ))
  · intro h
    have : ((i * chunkSize : ℕ) : ℚ) < (size : ℚ) := by exact_mod_cast h
    push_cast at this
    linarith

/-- C3 counterexample: a 30MB audio blob (over the 25MB threshold) with no
progress callback is processed in direct mode, refuting the claim that
chunked mode is used whenever the blob exceeds 25MB. -/
theorem transcribe_large_without_callback_direct :
    transcribeMode (30 * 1024 * 1024) false = TranscribeMode.direct ∧
    30 * 1024 * 1024 > 25 * 1024 * 1024 := by
  constructor
  · unfold transcribeMode
    rw [if_neg]
    simp
  · norm_num

lemma size_le_totalChunks_mul (size : ℕ) : size ≤ totalChunks size * chunkSize := by
  have h := Nat.le_ceil ((size : ℚ) / (chunkSize : ℚ))
  rw [div_le_iff₀ (by norm_num [chunkSize] : (0 : ℚ) < (chunkSize : ℚ))] at h
  have h' : (size : ℚ) ≤ ((totalChunks size * chunkSize : ℕ) : ℚ) := by
    push_cast [totalChunks, jsCeilNat_eq_ceil]
    exact h
  exact_mod_cast h'

/-- C3 amended: chunked mode is used if and only if the blob exceeds 25MB
*and* a progress callback was supplied; in chunked mode the payload is cut
into `ceil(size/20MB)` byte ranges of at most 20MB each, contiguous,
starting at 0, all of exactly 20MB except possibly the last, the last
range ending at the blob size. -/
theorem transcribe_mode_and_chunk_partition (size : ℕ) (cb : Bool) (hpos : 0 < size) :
    (transcribeMode size cb = TranscribeMode.chunked ↔
      (size > 25 * 1024 * 1024 ∧ cb = true)) ∧
    (chunkRanges size).length = totalChunks size ∧
    List.Chain' (fun p q => p.2 = q.1) (chunkRanges size) ∧
    (∀ p ∈ chunkRanges size, p.1 < p.2 ∧ p.2 - p.1 ≤ chunkSize) ∧
    (∀ i, i + 1 < totalChunks size →
      ((chunkRanges size).get? i).map (fun p => p.2 - p.1) = some chunkSize) ∧
    ((chunkRanges size).head?).map Prod.fst = some 0 ∧
    ((chunkRanges size).getLast?).map Prod.snd = some size := by
  have hcpos : 0 < chunkSize := by norm_num [chunkSize]
  have hone : 0 < totalChunks size := by
    rw [lt_totalChunks_iff]
    simpa using hpos
  obtain ⟨k, hk⟩ : ∃ k, totalChunks size = k + 1 :=
    ⟨totalChunks size - 1, by omega⟩
  refine ⟨?_, ?_, ?_, ?_, ?_, ?_, ?_⟩
  · unfold transcribeMode
    by_cases hl : (size : ℚ) / (1024 * 1024) > 25 ∧ cb = true
    · rw [if_pos hl]
      exact iff_of_true rfl ⟨(sizeMB_gt_25_iff size).mp hl.1, hl.2⟩
    · rw [if_neg hl]
      exact iff_of_false (by simp)
        (fun h => hl ⟨(sizeMB_gt_25_iff size).mpr h.1, h.2⟩)
  · simp [chunkRanges]
  · unfold chunkRanges
    rw [List.chain'_map, hk, List.chain'_range_succ]
    intro m hm
    have hm1 : (m + 1) * chunkSize < size := by
      rw [← lt_totalChunks_iff, hk]
      omega
    show min (m * chunkSize + chunkSize) size = (m + 1) * chunkSize
    have e : (m + 1) * chunkSize = m * chunkSize + chunkSize := by ring
    rw [e] at hm1 ⊢
    omega
  · intro p hp
    rw [chunkRanges, List.mem_map] at hp
    obtain ⟨i, hi, rfl⟩ := hp
    rw [List.mem_range, lt_totalChunks_iff] at hi
    simp only []
    omega
  · intro i hi
    have hi' : i < totalChunks size := by omega
    rw [lt_totalChunks_iff] at hi
    have e : (i + 1) * chunkSize = i * chunkSize + chunkSize := by ring
    rw [e] at hi
    rw [chunkRanges, List.get?_map, List.get?_range hi']
    simp only [Option.map_some']
    congr 1
    omega
  · rw [chunkRanges, hk, List.range_succ_eq_map, List.map_cons]
    simp
  · rw [chunkRanges, hk, List.range_succ, List.map_append, List.map_cons, List.map_nil,
      List.getLast?_concat]
    simp only [Option.map_some', Option.some.injEq]
    have h := size_le_totalChunks_mul size
    rw [hk] at h
    have e : (k + 1) * chunkSize = k * chunkSize + chunkSize := by ring
    rw [e] at h
    omega

/-- Witness for C3 (amended) at a concrete 60MB blob with a callback. -/
theorem transcribe_mode_and_chunk_partition_witness :
    0 < 60 * 1024 * 1024 ∧
    (transcribeMode (60 * 1024 * 1024) true = TranscribeMode.chunked ↔
      (60 * 1024 * 1024 > 25 * 1024 * 1024 ∧ true = true)) ∧
    (chunkRanges (60 * 1024 * 1024)).length = totalChunks (60 * 1024 * 1024) ∧
    List.Chain' (fun p q => p.2 = q.1) (chunkRanges (60 * 1024 * 1024)) ∧
    (∀ p ∈ chunkRanges (60 * 1024 * 1024), p.1 < p.2 ∧ p.2 - p.1 ≤ chunkSize) ∧
    (∀ i, i + 1 < totalChunks (60 * 1024 * 1024) →
      ((chunkRanges (60 * 1024 * 1024)).get? i).map (fun p => p.2 - p.1) = some chunkSize) ∧
    ((chunkRanges (60 * 1024 * 1024)).head?).map Prod.fst = some 0 ∧
    ((chunkRanges (60 * 1024 * 1024)).getLast?).map Prod.snd = some (60 * 1024 * 1024) :=
  ⟨by norm_num, transcribe_mode_and_chunk_partition (60 * 1024 * 1024) true (by norm_num)⟩

/-! ### Segment ids of chunked runs (C4) -/

/-- The consecutive integers `s, s+1, ..., s+n-1`. -/
def consecFrom (s : ℤ) : ℕ → List ℤ
  | 0 => []
  | n + 1 => s :: consecFrom (s + 1) n

lemma genAux_ids (rng : ℕ → ℚ) (endT : ℚ) (count : ℕ) (fuel : ℕ) :
    ∀ (i : ℕ) (cur : ℚ) (sid : ℤ),
      (genAux rng endT count fuel i cur sid).map TSeg.id =
        consecFrom sid (genAux rng endT count fuel i cur sid).length := by
  induction fuel with
  | zero =>
    intro i cur sid
    simp [genAux, consecFrom]
  | succ fuel ih =>
    intro i cur sid
    by_cases h : cur < endT
    · simp only [genAux, if_pos h, List.map_cons, List.length_cons, consecFrom]
      exact List.cons_eq_cons.mpr ⟨rfl, ih _ _ _⟩
    · simp [genAux, if_neg h, consecFrom]

set_option maxRecDepth 4000 in
/-- C4 counterexample: in the chunked run on a 60MB blob with duration
hint 100s (constant 1/2 random stream), 3 chunks of duration 100/3 are
produced; the 15 segment ids are [1,2,3,4,5,5,6,7,8,9,9,10,11,12,13]: not
the consecutive ids 1..15 (ids 5 and 9 repeat, 14 and 15 never occur),
because each chunk restarts ids at floor(chunkOffset/8)+1. -/
theorem chunked_ids_not_one_to_total :
    (transcribeAudioInChunks (fun _ _ => 1/2) (60 * 1024 * 1024) 100).length = 15 ∧
    (transcribeAudioInChunks (fun _ _ => 1/2) (60 * 1024 * 1024) 100).map TSeg.id =
      [1, 2, 3, 4, 5, 5, 6, 7, 8, 9, 9, 10, 11, 12, 13] ∧
    ¬ ((transcribeAudioInChunks (fun _ _ => 1/2) (60 * 1024 * 1024) 100).map TSeg.id).Nodup ∧
    (transcribeAudioInChunks (fun _ _ => 1/2) (60 * 1024 * 1024) 100).map TSeg.id ≠
      consecFrom 1 15 := by
  refine ⟨?_, ?_, ?_, ?_⟩ <;> with_unfolding_all decide

/-- C4 amended: within each chunk of a chunked transcription run the
segment ids are consecutive integers starting at
`floor(chunkOffset / 8) + 1`; the run is the concatenation of the chunk
segment lists, but the global id sequence is not in general `1..total`
(ids can repeat or skip at chunk boundaries, as the counterexample
shows). -/
theorem chunk_ids_consecutive_within_chunk (rng : ℕ → ℕ → ℚ) (size : ℕ) (D : ℚ) (i : ℕ) :
    (chunkSegs rng size D i).map TSeg.id =
      consecFrom (⌊((i : ℚ) * (D / (totalChunks size : ℚ))) / 8⌋ + 1)
        (chunkSegs rng size D i).length ∧
    transcribeAudioInChunks rng size D =
      (List.range (totalChunks size)).flatMap (chunkSegs rng size D) := by
  refine ⟨?_, rfl⟩
  unfold chunkSegs generateOptimizedTranscription
  rw [← jsFloor_eq_floor]
  exact genAux_ids _ _ _ _ _ _ _

/-! ### Timestamps of chunked runs (C5) -/

lemma genAux_succ_eq_nil_iff (rng : ℕ → ℚ) (endT : ℚ) (count fuel i : ℕ) (cur : ℚ)
    (sid : ℤ) :
    genAux rng endT count (fuel + 1) i cur sid = [] ↔ ¬ cur < endT := by
  by_cases h : cur < endT
  · simp [genAux, if_pos h, h]
  · simp [genAux, if_neg h, h]

lemma genAux_endTime_le (rng : ℕ → ℚ) (endT : ℚ) (count : ℕ) (fuel : ℕ) :
    ∀ (i : ℕ) (cur : ℚ) (sid : ℤ), ∀ s ∈ genAux rng endT count fuel i cur sid,
      s.endTime ≤ endT := by
  induction fuel with
  | zero =>
    intro i cur sid s hs
    simp [genAux] at hs
  | succ f ih =>
    intro i cur sid s hs
    by_cases hc : cur < endT
    · simp only [genAux, if_pos hc, List.mem_cons] at hs
      rcases hs with rfl | hs
      · show cur + min (avgSegmentDuration + (rng (3 * i) * 4 - 2)) (endT - cur) ≤ endT
        have := min_le_right (avgSegmentDuration + (rng (3 * i) * 4 - 2)) (endT - cur)
        linarith
      · exact ih _ _ _ s hs
    · simp [genAux, if_neg hc] at hs

lemma genAux_head_start (rng : ℕ → ℚ) (endT : ℚ) (count fuel i : ℕ) (cur : ℚ)
    (sid : ℤ) (t : TSeg) (h : (genAux rng endT count fuel i cur sid).head? = some t) :
    t.startTime = cur := by
  cases fuel with
  | zero => simp [genAux] at h
  | succ f =>
    by_cases hc : cur < endT
    · simp only [genAux, if_pos hc, List.head?_cons, Option.some.injEq] at h
      rw [← h]
    · simp [genAux, if_neg hc] at h

lemma genAux_times_shift (rng : ℕ → ℚ) (endT off : ℚ) (count : ℕ) (fuel : ℕ) :
    ∀ (i : ℕ) (cur : ℚ) (sid sid' : ℤ) (endT' cur' : ℚ),
      endT' = endT + off → cur' = cur + off →
      (genAux rng endT' count fuel i cur' sid).map (fun s => (s.startTime, s.endTime)) =
        ((genAux rng endT count fuel i cur sid').map (fun s => (s.startTime, s.endTime))).map
          (fun p => (p.1 + off, p.2 + off)) := by
  induction fuel with
  | zero =>
    intro i cur sid sid' endT' cur' hE hC
    simp [genAux]
  | succ f ih =>
    intro i cur sid sid' endT' cur' hE hC
    subst hE hC
    by_cases h : cur < endT
    · have h' : cur + off < endT + off := by linarith
      simp only [genAux, if_pos h, if_pos h', List.map_cons]
      have hsub : (endT + off) - (cur + off) = endT - cur := by ring
      rw [hsub]
      refine List.cons_eq_cons.mpr ⟨?_, ?_⟩
      · exact congrArg (Prod.mk (cur + off)) (by ring)
      · exact ih (i + 1) (cur + min (avgSegmentDuration + (rng (3 * i) * 4 - 2)) (endT - cur))
          (sid + 1) (sid' + 1) _ _ rfl (by ring)
    · have h' : ¬ cur + off < endT + off := by intro hcon; exact h (by linarith)
      simp [genAux, if_neg h, if_neg h']

lemma genAux_getLast_ge (rng : ℕ → ℚ) (endT : ℚ) (count : ℕ)
    (hbd : ∀ n, 0 ≤ rng n) (fuel : ℕ) :
    ∀ (i : ℕ) (cur : ℚ) (sid : ℤ) (s : TSeg),
      (genAux rng endT count fuel i cur sid).getLast? = some s →
      min endT (cur + 6 * (fuel : ℚ)) ≤ s.endTime := by
  induction fuel with
  | zero =>
    intro i cur sid s hs
    simp [genAux] at hs
  | succ f ih =>
    intro i cur sid s hs
    by_cases hc : cur < endT
    · simp only [genAux, if_pos hc] at hs
      have h6 : (6 : ℚ) ≤ avgSegmentDuration + (rng (3 * i) * 4 - 2) := by
        have := hbd (3 * i)
        unfold avgSegmentDuration
        linarith
      cases hrest : genAux rng endT count f (i + 1)
          (cur + min (avgSegmentDuration + (rng (3 * i) * 4 - 2)) (endT - cur)) (sid + 1) with
      | nil =>
        rw [hrest, List.getLast?_singleton, Option.some.injEq] at hs
        have hs' : s.endTime =
            cur + min (avgSegmentDuration + (rng (3 * i) * 4 - 2)) (endT - cur) := by
          rw [← hs]
        rw [hs']
        push_cast
        cases f with
        | zero =>
          rcases le_total (avgSegmentDuration + (rng (3 * i) * 4 - 2)) (endT - cur) with hd | hd
          · rw [min_eq_left hd]
            refine le_trans (min_le_right _ _) ?_
            push_cast
            linarith
          · rw [min_eq_right hd]
            refine le_trans (min_le_left _ _) ?_
            linarith
        | succ f' =>
          have hnl := (genAux_succ_eq_nil_iff rng endT count f' (i + 1)
            (cur + min (avgSegmentDuration + (rng (3 * i) * 4 - 2)) (endT - cur)) (sid + 1)).mp hrest
          exact le_trans (min_le_left _ _) (not_lt.mp hnl)
      | cons r rs =>
        rw [hrest, List.getLast?_cons_cons] at hs
        obtain ⟨f', rfl⟩ : ∃ f', f = f' + 1 := by
          cases f with
          | zero =>
            rw [show genAux rng endT count 0 (i + 1)
              (cur + min (avgSegmentDuration + (rng (3 * i) * 4 - 2)) (endT - cur)) (sid + 1)
                = [] from rfl] at hrest
            cases hrest
          | succ f' => exact ⟨f', rfl⟩
        have hlt : cur + min (avgSegmentDuration + (rng (3 * i) * 4 - 2)) (endT - cur) < endT := by
          by_contra hcon
          rw [(genAux_succ_eq_nil_iff rng endT count f' (i + 1) _ (sid + 1)).mpr hcon] at hrest
          cases hrest
        have hmin : (6 : ℚ) ≤ min (avgSegmentDuration + (rng (3 * i) * 4 - 2)) (endT - cur) := by
          rcases le_total (avgSegmentDuration + (rng (3 * i) * 4 - 2)) (endT - cur) with hd | hd
          · rw [min_eq_left hd]
            linarith
          · exfalso
            rw [min_eq_right hd, add_sub_cancel] at hlt
            exact lt_irrefl endT hlt
        have hih := ih (i + 1)
          (cur + min (avgSegmentDuration + (rng (3 * i) * 4 - 2)) (endT - cur)) (sid + 1) s
          (by rw [hrest]; exact hs)
        refine le_trans (min_le_min (le_refl endT) ?_) hih
        push_cast
        linarith
    · simp [genAux, if_neg hc] at hs

/-- Nonemptiness of the generation loop result. -/
lemma genAux_succ_ne_nil (rng : ℕ → ℚ) (endT : ℚ) (count fuel i : ℕ) (cur : ℚ)
    (sid : ℤ) (h : cur < endT) :
    genAux rng endT count (fuel + 1) i cur sid ≠ [] := by
  intro hcon
  exact (genAux_succ_eq_nil_iff rng endT count fuel i cur sid).mp hcon h

set_option maxRecDepth 8000 in
/-- C5: in every chunked transcription run with duration hint `D` and
`N = totalChunks` chunks: (a) chunk `i`'s segment timestamps are those of
a base (offset-0) backend run shifted by the offset `i * (D/N)`; (b) at
every chunk boundary, every segment of chunk `i` (in particular its last)
ends no later than the start of the first segment of chunk `i+1`; (c) all
segment end times are at most `D`, and the run's final end time is at
least `min D ((N-1)*(D/N) + 6*ceil((D/N)/8))` (per-chunk rounding: each
of the at most `ceil((D/N)/8)` segments of the last chunk lasts at least
6s); in particular a 60MB blob with `durationHint = 120` yields 3 chunks
and (with the constant-1/2 random stream) a final end time of exactly
120. -/
theorem chunked_timestamps_rebased_and_bounded (rng : ℕ → ℕ → ℚ) (size : ℕ) (D : ℚ)
    (hD : 0 < D) (hsz : 0 < size) (hbd : ∀ i j, 0 ≤ rng i j) :
    (∀ i, (chunkSegs rng size D i).map (fun s => (s.startTime, s.endTime)) =
      ((generateOptimizedTranscription (rng i) (D / (totalChunks size : ℚ)) 0).map
        (fun s => (s.startTime, s.endTime))).map
        (fun p => (p.1 + (i : ℚ) * (D / (totalChunks size : ℚ)),
                   p.2 + (i : ℚ) * (D / (totalChunks size : ℚ))))) ∧
    (∀ i s t, s ∈ chunkSegs rng size D i →
      (chunkSegs rng size D (i + 1)).head? = some t → s.endTime ≤ t.startTime) ∧
    (∀ s ∈ transcribeAudioInChunks rng size D, s.endTime ≤ D) ∧
    (∀ s, (transcribeAudioInChunks rng size D).getLast? = some s →
      min D (((totalChunks size : ℚ) - 1) * (D / (totalChunks size : ℚ)) +
        6 * (⌈(D / (totalChunks size : ℚ)) / 8⌉₊ : ℚ)) ≤ s.endTime) ∧
    totalChunks (60 * 1024 * 1024) = 3 ∧
    ((transcribeAudioInChunks (fun _ _ => (1 : ℚ)/2) (60 * 1024 * 1024) 120).getLast?).map
      TSeg.endTime = some 120 := by
  have hN : 0 < totalChunks size := by
    rw [lt_totalChunks_iff]
    simpa using hsz
  have hNQ : (0 : ℚ) < (totalChunks size : ℚ) := by exact_mod_cast hN
  have hcd : 0 < D / (totalChunks size : ℚ) := div_pos hD hNQ
  refine ⟨?_, ?_, ?_, ?_, ?_, ?_⟩
  · intro i
    simp only [chunkSegs, generateOptimizedTranscription]
    exact genAux_times_shift (rng i) (0 + D / (totalChunks size : ℚ))
      ((i : ℚ) * (D / (totalChunks size : ℚ))) _ _ _ _ _ _ _ _ (by ring) (by ring)
  · intro i s t hs ht
    simp only [chunkSegs, generateOptimizedTranscription] at hs ht
    have h1 := genAux_endTime_le (rng i)
      ((i : ℚ) * (D / (totalChunks size : ℚ)) + D / (totalChunks size : ℚ)) _ _ _ _ _ s hs
    have h2 := genAux_head_start (rng (i + 1)) _ _ _ _ _ _ t ht
    rw [h2]
    push_cast
    linarith
  · intro s hs
    rw [transcribeAudioInChunks, List.mem_flatMap] at hs
    obtain ⟨i, hi, hs⟩ := hs
    rw [List.mem_range] at hi
    simp only [chunkSegs, generateOptimizedTranscription] at hs
    have h1 := genAux_endTime_le (rng i)
      ((i : ℚ) * (D / (totalChunks size : ℚ)) + D / (totalChunks size : ℚ)) _ _ _ _ _ s hs
    have hi1 : ((i : ℚ) + 1) ≤ (totalChunks size : ℚ) := by exact_mod_cast hi
    have hle : ((i : ℚ) + 1) * (D / (totalChunks size : ℚ)) ≤
        (totalChunks size : ℚ) * (D / (totalChunks size : ℚ)) :=
      mul_le_mul_of_nonneg_right hi1 hcd.le
    rw [mul_div_cancel₀ D hNQ.ne'] at hle
    calc s.endTime ≤ (i : ℚ) * (D / (totalChunks size : ℚ)) + D / (totalChunks size : ℚ) := h1
      _ = ((i : ℚ) + 1) * (D / (totalChunks size : ℚ)) := by ring
      _ ≤ D := hle
  · intro s hs
    obtain ⟨k, hk⟩ : ∃ k, totalChunks size = k + 1 := ⟨totalChunks size - 1, by omega⟩
    have hcount : 0 < jsCeilNat (D / (totalChunks size : ℚ) / avgSegmentDuration) := by
      rw [jsCeilNat_eq_ceil]
      refine Nat.ceil_pos.mpr ?_
      unfold avgSegmentDuration
      positivity
    obtain ⟨c, hc⟩ : ∃ c, jsCeilNat (D / (totalChunks size : ℚ) / avgSegmentDuration) = c + 1 :=
      ⟨jsCeilNat (D / (totalChunks size : ℚ) / avgSegmentDuration) - 1, by omega⟩
    have hkcur : ((k : ℚ)) * (D / (totalChunks size : ℚ)) <
        (k : ℚ) * (D / (totalChunks size : ℚ)) + D / (totalChunks size : ℚ) := by linarith
    have hlast_ne : chunkSegs rng size D k ≠ [] := by
      simp only [chunkSegs, generateOptimizedTranscription, hc]
      exact genAux_succ_ne_nil _ _ _ _ _ _ _ hkcur
    have hsplit : transcribeAudioInChunks rng size D =
        (List.range k).flatMap (chunkSegs rng size D) ++ chunkSegs rng size D k := by
      rw [transcribeAudioInChunks, hk, List.range_succ, List.flatMap_append]
      simp
    rw [hsplit, List.getLast?_append_of_ne_nil _ hlast_ne] at hs
    have hlow := genAux_getLast_ge (rng k)
      ((k : ℚ) * (D / (totalChunks size : ℚ)) + D / (totalChunks size : ℚ)) _
      (hbd k) _ _ _ _ s (by
        simpa only [chunkSegs, generateOptimizedTranscription] using hs)
    have hNk : ((totalChunks size : ℕ) : ℚ) = (k : ℚ) + 1 := by
      rw [hk]
      push_cast
      ring
    have hD' : (k : ℚ) * (D / (totalChunks size : ℚ)) + D / (totalChunks size : ℚ) = D := by
      calc (k : ℚ) * (D / (totalChunks size : ℚ)) + D / (totalChunks size : ℚ)
          = ((k : ℚ) + 1) * (D / (totalChunks size : ℚ)) := by ring
        _ = (totalChunks size : ℚ) * (D / (totalChunks size : ℚ)) := by rw [hNk]
        _ = D := mul_div_cancel₀ D hNQ.ne'
    have hcount' : ((⌈(D / (totalChunks size : ℚ)) / 8⌉₊ : ℕ) : ℚ) =
        (jsCeilNat (D / (totalChunks size : ℚ) / avgSegmentDuration) : ℚ) := by
      rw [jsCeilNat_eq_ceil]
      rfl
    have hkk : ((totalChunks size : ℚ) - 1) = (k : ℚ) := by
      rw [hNk]
      ring
    rw [hD'] at hlow
    rw [hkk, hcount']
    exact hlow
  · with_unfolding_all decide
  · with_unfolding_all decide

/-- Witness for C5 at the concrete scenario inputs (60MB blob, 120s
duration hint, constant-1/2 random stream): every segment end time of the
run is at most 120. -/
theorem chunked_timestamps_witness :
    (0 : ℚ) < 120 ∧ 0 < 60 * 1024 * 1024 ∧
    (∀ i j : ℕ, 0 ≤ ((fun _ _ => (1 : ℚ)/2) i j)) ∧
    (∀ s ∈ transcribeAudioInChunks (fun _ _ => (1 : ℚ)/2) (60 * 1024 * 1024) 120,
      s.endTime ≤ 120) :=
  ⟨by norm_num, by norm_num, fun i j => by norm_num,
    (chunked_timestamps_rebased_and_bounded (fun _ _ => (1 : ℚ)/2) (60 * 1024 * 1024) 120
      (by norm_num) (by norm_num) (fun i j => by norm_num)).2.2.1⟩

/-! ## TranscriptionPanel: segment editing (C8)

`handleSaveEdit(id)` replaces the transcript state with
`prev.map(item => item.id === id ? { ...item, text: editText } : item)`. -/

/-- The edit operation of `handleSaveEdit`. -/
def handleSaveEdit (id : ℤ) (editText : String) (prev : List TSeg) : List TSeg :=
  prev.map fun item => if item.id = id then { item with text := editText } else item

/-- C8: editing via `handleSaveEdit` (i) makes every segment carrying the
edited id read back exactly the new text, (ii) leaves every segment's id,
startTime and endTime — and the order and length of the list — unchanged,
(iii) leaves segments with a different id entirely unchanged in place, and
(iv) is a no-op when the id does not occur in the list. -/
theorem edit_roundtrip_and_preserves (l : List TSeg) (id : ℤ) (txt : String) :
    (∀ s ∈ handleSaveEdit id txt l, s.id = id → s.text = txt) ∧
    ((handleSaveEdit id txt l).map (fun s => (s.id, s.startTime, s.endTime)) =
      l.map (fun s => (s.id, s.startTime, s.endTime))) ∧
    (∀ (i : ℕ) (a : TSeg), l.get? i = some a → a.id ≠ id →
      (handleSaveEdit id txt l).get? i = some a) ∧
    ((∀ s ∈ l, s.id ≠ id) → handleSaveEdit id txt l = l) := by
  refine ⟨?_, ?_, ?_, ?_⟩
  · intro s hs hid
    rw [handleSaveEdit, List.mem_map] at hs
    obtain ⟨a, _, rfl⟩ := hs
    by_cases h : a.id = id
    · rw [if_pos h]
    · rw [if_neg h]
      rw [if_neg h] at hid
      exact absurd hid h
  · rw [handleSaveEdit, List.map_map]
    refine List.map_congr_left ?_
    intro a _
    simp only [Function.comp_apply]
    by_cases h : a.id = id
    · rw [if_pos h]
    · rw [if_neg h]
  · intro i a ha hne
    rw [handleSaveEdit, List.get?_map, ha, Option.map_some', if_neg hne]
  · intro hall
    rw [handleSaveEdit]
    conv_rhs => rw [← List.map_id l]
    refine List.map_congr_left ?_
    intro a ha
    rw [if_neg (hall a ha), id_eq]

/-- Witness for C8 at a concrete two-segment list, editing id 1. -/
theorem edit_roundtrip_witness :
    (∀ s ∈ handleSaveEdit 1 "edited"
        [⟨1, 0, 8, "one", 9/10⟩, ⟨2, 8, 16, "two", 9/10⟩],
      s.id = 1 → s.text = "edited") ∧
    ((handleSaveEdit 1 "edited"
        [⟨1, 0, 8, "one", 9/10⟩, ⟨2, 8, 16, "two", 9/10⟩]).map
        (fun s => (s.id, s.startTime, s.endTime)) =
      ([⟨1, 0, 8, "one", 9/10⟩, ⟨2, 8, 16, "two", 9/10⟩] : List TSeg).map
        (fun s => (s.id, s.startTime, s.endTime))) ∧
    (∀ (i : ℕ) (a : TSeg),
      ([⟨1, 0, 8, "one", 9/10⟩, ⟨2, 8, 16, "two", 9/10⟩] : List TSeg).get? i = some a →
      a.id ≠ 1 →
      (handleSaveEdit 1 "edited"
        [⟨1, 0, 8, "one", 9/10⟩, ⟨2, 8, 16, "two", 9/10⟩]).get? i = some a) ∧
    ((∀ s ∈ ([⟨1, 0, 8, "one", 9/10⟩, ⟨2, 8, 16, "two", 9/10⟩] : List TSeg), s.id ≠ 1) →
      handleSaveEdit 1 "edited" [⟨1, 0, 8, "one", 9/10⟩, ⟨2, 8, 16, "two", 9/10⟩] =
        [⟨1, 0, 8, "one", 9/10⟩, ⟨2, 8, 16, "two", 9/10⟩]) :=
  edit_roundtrip_and_preserves
    [⟨1, 0, 8, "one", 9/10⟩, ⟨2, 8, 16, "two", 9/10⟩] 1 "edited"

/-! ## exportService / ExportModal: multi-item export (C9)

`exportTranscription` throws on empty data, on an unknown export type and
on an unknown file format; otherwise it generates the content, hands the
file to the browser download helpers (whose failures are modelled by the
`deliver` oracle — e.g. the DOCX packer can throw), and returns
`{ success: true, filename }`.  `handleExportAll` loops over the enabled
export items, try/catching each call and pushing a per-item
success/failure entry. -/

/-- `toLowerCase()` on ASCII strings, mapped structurally over the
characters. -/
def jsToLower (s : String) : String := String.mk (s.data.map Char.toLower)

/-- The `exportType` switch of `exportTranscription`: filename suffix per
type, error for an invalid type. -/
def exportSuffix (exportType : String) : Except String String :=
  if exportType = "full" then .ok "_full_transcript"
  else if exportType = "summary" then .ok "_summary"
  else if exportType = "keypoints" then .ok "_key_points"
  else .error "Invalid export type specified."

/-- Control flow of `exportTranscription` (content generation abstracted:
only the length of the data matters for the empty-data guard; file-writing
outcomes come from the `deliver` oracle). -/
def exportTranscription (dataLen : ℕ) (exportType fileFormat baseFilename : String)
    (deliver : Except String Unit) : Except String String :=
  if dataLen = 0 then .error "No transcription data available for export."
  else
    match exportSuffix exportType with
    | .error e => .error e
    | .ok suffix =>
      let filename := baseFilename ++ suffix
      if jsToLower fileFormat = "txt" ∨ jsToLower fileFormat = "html" ∨
          jsToLower fileFormat = "docx" then
        match deliver with
        | .ok _ => .ok (filename ++ "." ++ fileFormat)
        | .error e => .error e
      else .error "Invalid file format specified."

/-- One export item's selection state in the modal. -/
structure ExportConfig where
  enabled : Bool
  format : String
  deriving DecidableEq, Repr

/-- One entry of the `exportResults` list built by `handleExportAll`. -/
structure ExportResultEntry where
  ty : String
  format : String
  success : Bool
  filename : Option String
  error : Option String
  deriving DecidableEq, Repr

/-- The per-item result `handleExportAll` pushes for one enabled item. -/
def exportItemResult (dataLen : ℕ) (base : String)
    (deliver : String → String → Except String Unit)
    (p : String × ExportConfig) : ExportResultEntry :=
  match exportTranscription dataLen p.1 p.2.format base (deliver p.1 p.2.format) with
  | .ok fn => ⟨p.1, p.2.format, true, some fn, none⟩
  | .error e => ⟨p.1, p.2.format, false, none, some e⟩

/-- The loop of `handleExportAll`: iterate over the enabled exports,
try/catch each `exportTranscription` call, and accumulate a success entry
(with filename) or a failure entry (with error message) per item. -/
def handleExportAll (dataLen : ℕ) (base : String)
    (selectedExports : List (String × ExportConfig))
    (deliver : String → String → Except String Unit) : List ExportResultEntry :=
  let enabledExports := selectedExports.filter fun p => p.2.enabled
  enabledExports.foldl
    (fun results p =>
      match exportTranscription dataLen p.1 p.2.format base (deliver p.1 p.2.format) with
      | .ok fn => results ++ [⟨p.1, p.2.format, true, some fn, none⟩]
      | .error e => results ++ [⟨p.1, p.2.format, false, none, some e⟩]) []

lemma exportLoop_eq (dataLen : ℕ) (base : String)
    (deliver : String → String → Except String Unit) :
    ∀ (l : List (String × ExportConfig)) (acc : List ExportResultEntry),
      l.foldl
        (fun results p =>
          match exportTranscription dataLen p.1 p.2.format base (deliver p.1 p.2.format) with
          | .ok fn => results ++ [⟨p.1, p.2.format, true, some fn, none⟩]
          | .error e => results ++ [⟨p.1, p.2.format, false, none, some e⟩]) acc
      = acc ++ l.map (exportItemResult dataLen base deliver) := by
  intro l
  induction l with
  | nil =>
    intro acc
    simp
  | cons p l ih =>
    intro acc
    rw [List.foldl_cons, ih, List.map_cons]
    cases h : exportTranscription dataLen p.1 p.2.format base (deliver p.1 p.2.format) with
    | ok fn => simp [exportItemResult, h]
    | error e => simp [exportItemResult, h]

/-- C9: in a multi-item export run, each enabled item is processed
independently — the result list is exactly the per-item map of outcomes
(so a failing item never aborts the remaining ones), has one entry per
enabled item, and each entry carries the filename on success and the error
message on failure. -/
theorem export_per_item_isolation (dataLen : ℕ) (base : String)
    (selectedExports : List (String × ExportConfig))
    (deliver : String → String → Except String Unit) :
    handleExportAll dataLen base selectedExports deliver =
      (selectedExports.filter fun p => p.2.enabled).map
        (exportItemResult dataLen base deliver) ∧
    (handleExportAll dataLen base selectedExports deliver).length =
      (selectedExports.filter fun p => p.2.enabled).length ∧
    ∀ p ∈ selectedExports.filter (fun p => p.2.enabled),
      (∀ fn, exportTranscription dataLen p.1 p.2.format base (deliver p.1 p.2.format) = .ok fn →
        exportItemResult dataLen base deliver p = ⟨p.1, p.2.format, true, some fn, none⟩) ∧
      (∀ e, exportTranscription dataLen p.1 p.2.format base (deliver p.1 p.2.format) = .error e →
        exportItemResult dataLen base deliver p = ⟨p.1, p.2.format, false, none, some e⟩) := by
  have hmain : handleExportAll dataLen base selectedExports deliver =
      (selectedExports.filter fun p => p.2.enabled).map
        (exportItemResult dataLen base deliver) := by
    rw [handleExportAll]
    rw [exportLoop_eq dataLen base deliver (selectedExports.filter fun p => p.2.enabled) []]
    rw [List.nil_append]
  refine ⟨hmain, ?_, ?_⟩
  · rw [hmain, List.length_map]
  · intro p _
    constructor
    · intro fn hfn
      rw [exportItemResult, hfn]
    · intro e he
      rw [exportItemResult, he]

/-- Witness for C9: three items (key-points disabled), with the DOCX
delivery failing; the run still yields one entry per enabled item. -/
theorem export_per_item_isolation_witness :
    handleExportAll 3 "video"
        [("full", ⟨true, "txt"⟩), ("summary", ⟨true, "docx"⟩), ("keypoints", ⟨false, "txt"⟩)]
        (fun _ fmt => if fmt = "docx" then .error "Failed to create DOCX file." else .ok ()) =
      (([("full", ⟨true, "txt"⟩), ("summary", ⟨true, "docx"⟩),
          ("keypoints", ⟨false, "txt"⟩)] : List (String × ExportConfig)).filter
        (fun p => p.2.enabled)).map
        (exportItemResult 3 "video"
          (fun _ fmt => if fmt = "docx" then .error "Failed to create DOCX file." else .ok ())) :=
  (export_per_item_isolation 3 "video"
    [("full", ⟨true, "txt"⟩), ("summary", ⟨true, "docx"⟩), ("keypoints", ⟨false, "txt"⟩)]
    (fun _ fmt => if fmt = "docx" then .error "Failed to create DOCX file." else .ok ())).1

/-! ## transcriptionService: export formatting (C10) -/

/-- JS `%` (truncated remainder): `x - y * trunc(x / y)`; `Int.div` is
truncation toward zero, matching JS. -/
def jsMod (x y : ℚ) : ℚ := x - y * ((x / y).num.div ((x / y).den : ℤ) : ℚ)

/-- `String(n).padStart(len, '0')`. -/
def padZero (n : ℤ) (len : ℕ) : String :=
  let s := toString n
  if s.length ≥ len then s
  else String.mk (List.replicate (len - s.length) (Char.ofNat 48)) ++ s

/-- `formatSrtTime(seconds)`: `HH:MM:SS,mmm`. -/
def formatSrtTime (seconds : ℚ) : String :=
  let hours := jsFloor (seconds / 3600)
  let minutes := jsFloor (jsMod seconds 3600 / 60)
  let secs := jsFloor (jsMod seconds 60)
  let ms := jsFloor (jsMod seconds 1 * 1000)
  padZero hours 2 ++ ":" ++ padZero minutes 2 ++ ":" ++ padZero secs 2 ++ "," ++ padZero ms 3

/-- `formatVttTime(seconds)`: `HH:MM:SS.mmm`. -/
def formatVttTime (seconds : ℚ) : String :=
  let hours := jsFloor (seconds / 3600)
  let minutes := jsFloor (jsMod seconds 3600 / 60)
  let secs := jsFloor (jsMod seconds 60)
  let ms := jsFloor (jsMod seconds 1 * 1000)
  padZero hours 2 ++ ":" ++ padZero minutes 2 ++ ":" ++ padZero secs 2 ++ "." ++ padZero ms 3

/-- `formatTranscriptionForExport(transcriptionData, format)`: empty
string for null/empty data; switch on `format.toLowerCase()` with
plain-text join (segments separated by blank lines) for `txt` and for any
unrecognized format, SRT/VTT blocks otherwise. -/
def formatTranscriptionForExport (transcriptionData : Option (List TSeg))
    (format : String) : String :=
  match transcriptionData with
  | none => ""
  | some segs =>
    if segs.length = 0 then ""
    else if jsToLower format = "txt" then
      String.intercalate "\n\n" (segs.map TSeg.text)
    else if jsToLower format = "srt" then
      String.intercalate "\n" (segs.enum.map fun p =>
        toString (p.1 + 1) ++ "\n" ++ formatSrtTime p.2.startTime ++ " --> " ++
          formatSrtTime p.2.endTime ++ "\n" ++ p.2.text ++ "\n")
    else if jsToLower format = "vtt" then
      "WEBVTT\n\n" ++ String.intercalate "\n\n" (segs.enum.map fun p =>
        toString (p.1 + 1) ++ "\n" ++ formatVttTime p.2.startTime ++ " --> " ++
          formatVttTime p.2.endTime ++ "\n" ++ p.2.text)
    else
      String.intercalate "\n\n" (segs.map TSeg.text)

/-- C10: for every format string, null or empty transcription data
formats to the empty string; and for any format other than txt/srt/vtt
(case-insensitively), the result is the plain-text join of the segment
texts separated by blank lines. -/
theorem format_export_empty_and_default (format : String) (segs : List TSeg) :
    formatTranscriptionForExport none format = "" ∧
    formatTranscriptionForExport (some []) format = "" ∧
    (jsToLower format ≠ "txt" → jsToLower format ≠ "srt" → jsToLower format ≠ "vtt" →
      formatTranscriptionForExport (some segs) format =
        String.intercalate "\n\n" (segs.map TSeg.text)) := by
  refine ⟨rfl, rfl, ?_⟩
  intro h1 h2 h3
  rw [formatTranscriptionForExport]
  by_cases hlen : segs.length = 0
  · rw [if_pos hlen]
    rw [List.length_eq_zero] at hlen
    subst hlen
    rfl
  · rw [if_neg hlen, if_neg h1, if_neg h2, if_neg h3]

/-- Witness for C10 at format "pdf" and a one-segment list. -/
theorem format_export_witness :
    (jsToLower "pdf" ≠ "txt" ∧ jsToLower "pdf" ≠ "srt" ∧ jsToLower "pdf" ≠ "vtt") ∧
    formatTranscriptionForExport (some [⟨1, 0, 8, "hello", 9/10⟩]) "pdf" =
      String.intercalate "\n\n" (([⟨1, 0, 8, "hello", 9/10⟩] : List TSeg).map TSeg.text) :=
  ⟨⟨by decide, by decide, by decide⟩,
    (format_export_empty_and_default "pdf" [⟨1, 0, 8, "hello", 9/10⟩]).2.2
      (by decide) (by decide) (by decide)⟩

end VideoApp
